import Mathlib

/-!
Verification development for the Outlook → Airtable reconciliation pipeline
(`src/main.py`, `src/app.py`).

The Python source is shallowly embedded below:
* `format_date_for_airtable` embeds `main.format_date_for_airtable`
  (`datetime.strptime(s, "%Y-%m-%dT%H:%M:%SZ")` followed by
  `strftime("%Y/%m/%d")`; a `ValueError` is modelled as `none`).
* `aggregate_email_data` embeds `main.aggregate_email_data`; the Python dict
  `email_stats` is modelled as an insertion-ordered association list, and the
  `TypeError` raised by `max(None, x)` is modelled with `Except Unit`.
* `push_to_airtable`'s plan-building loop is embedded as `buildPlan`.
* `fetch_sent_emails` / `process_batch` / `main` are embedded as a
  deterministic sequential model (`fetch_sent_emails`, `process_batch`,
  `mainModel`) parameterised by response and cancellation oracles; polls of
  the shared stop flag are numbered in program order, and a batch executes
  synchronously at submission time.
-/

set_option autoImplicit false

/-! ## Date parsing: `format_date_for_airtable`

CPython's `_strptime` matches `%Y` as exactly four digits, `%m`/`%d`/`%H`/
`%M`/`%S` as one or two digits, and literal characters case-insensitively,
requiring the whole string to be consumed; `datetime` then validates the
field ranges (year ≥ 1, month 1–12, day within the month, hour ≤ 23,
minute ≤ 59, second ≤ 59).  Because every numeric field is followed by a
non-digit literal, greedy digit-grabbing is equivalent to the regex
alternations used by `_strptime`. -/

/-- Grab at most `n` leading decimal digits: value, how many digits, rest. -/
def takeDigits : Nat → Nat → Nat → List Char → Nat × Nat × List Char
  | 0, acc, cnt, cs => (acc, cnt, cs)
  | _ + 1, acc, cnt, [] => (acc, cnt, [])
  | n + 1, acc, cnt, c :: cs =>
    if c.isDigit then takeDigits n (10 * acc + (c.toNat - 48)) (cnt + 1) cs
    else (acc, cnt, c :: cs)

def isLeapYear (y : Nat) : Bool :=
  (y % 4 == 0 && y % 100 != 0) || (y % 400 == 0)

def daysInMonth (y m : Nat) : Nat :=
  if m == 2 then (if isLeapYear y then 29 else 28)
  else if m == 4 || m == 6 || m == 9 || m == 11 then 30
  else 31

/-- Parse `"%Y-%m-%dT%H:%M:%SZ"`; returns `(year, month, day)` on success. -/
def parseReceived (cs : List Char) : Option (Nat × Nat × Nat) :=
  match takeDigits 4 0 0 cs with
  | (y, 4, '-' :: cs₁) =>
    match takeDigits 2 0 0 cs₁ with
    | (mo, mk + 1, '-' :: cs₂) =>
      match takeDigits 2 0 0 cs₂ with
      | (d, dk + 1, t :: cs₃) =>
        if t = 'T' ∨ t = 't' then
          match takeDigits 2 0 0 cs₃ with
          | (h, hk + 1, ':' :: cs₄) =>
            match takeDigits 2 0 0 cs₄ with
            | (mi, mik + 1, ':' :: cs₅) =>
              match takeDigits 2 0 0 cs₅ with
              | (sec, sk + 1, z :: cs₆) =>
                if (z = 'Z' ∨ z = 'z') ∧ cs₆ = [] ∧
                    mk ≤ 1 ∧ dk ≤ 1 ∧ hk ≤ 1 ∧ mik ≤ 1 ∧ sk ≤ 1 ∧
                    1 ≤ y ∧ 1 ≤ mo ∧ mo ≤ 12 ∧ 1 ≤ d ∧ d ≤ daysInMonth y mo ∧
                    h ≤ 23 ∧ mi ≤ 59 ∧ sec ≤ 59 then
                  some (y, mo, d)
                else none
              | _ => none
            | _ => none
          | _ => none
        else none
      | _ => none
    | _ => none
  | _ => none

/-- Two-digit zero padding, as `strftime` `%m` / `%d`. -/
def pad2 (n : Nat) : String :=
  if n < 10 then "0" ++ toString n else toString n

/-- Embeds `main.format_date_for_airtable`: parse the exact Graph timestamp
format and re-emit as `YYYY/MM/DD` (glibc `%Y` prints the year unpadded);
a parse failure (`ValueError`) yields `none`. -/
def format_date_for_airtable (date_string : String) : Option String :=
  match parseReceived date_string.toList with
  | none => none
  | some (y, mo, d) => some (toString y ++ "/" ++ pad2 mo ++ "/" ++ pad2 d)

/-! ## Data model -/

/-- One fetched message, the `email_info` dict built in `fetch_sent_emails`.
`name_data` models the Python dict produced by `extract_emails` as an
association list (first match wins on lookup, keys unique by construction). -/
structure Email where
  subject : String
  sender : String
  toRecipients : List String
  cc : List String
  bcc : List String
  received : String
  name_data : List (String × String)
  deriving Repr, DecidableEq

/-- One per-recipient summary, the dict stored in `email_stats`. -/
structure Summary where
  recipientEmail : String
  company : String
  totalMailsSent : Nat
  name : String
  lastInteractedDate : Option String
  deriving Repr, DecidableEq

/-- `recipients = email["to"] + email["cc"] + email["bcc"]` (line 125). -/
def allRecipients (e : Email) : List String := e.toRecipients ++ e.cc ++ e.bcc

/-- `recipients.count(recipient)`. -/
def countOccIn (r : String) : List String → Nat
  | [] => 0
  | x :: xs => (if x = r then 1 else 0) + countOccIn r xs

/-- `set(recipients)`: the distinct recipients of the record.  Python's set
iteration order is unspecified; we keep first-occurrence order — no claim
below depends on the iteration order within one record. -/
def dedupKeep : List String → List String
  | [] => []
  | x :: xs => x :: (dedupKeep xs).filter (fun y => y ≠ x)

/-- `recipient.split("@")[-1]`: suffix after the last `@` (whole string when
no `@` occurs). -/
def afterLastAt : List Char → List Char
  | [] => []
  | c :: rest =>
    if rest.contains '@' then afterLastAt rest
    else if c = '@' then rest
    else c :: rest

/-- `recipient.split("@")[-1] if "@" in recipient else "unknown"` (line 127). -/
def domainOf (r : String) : String :=
  if r.toList.contains '@' then String.mk (afterLastAt r.toList) else "unknown"

/-- `email.get("name_data", {}).get(recipient, "")` (line 134). -/
def nameOf (e : Email) (r : String) : String :=
  match e.name_data.find? (fun p => p.1 = r) with
  | some p => p.2
  | none => ""

/-- Python `max(a, b)` on two strings: `b if a < b else a`.  (Python string
comparison is pointwise-lexicographic on code points, which is exactly
`String.lt`; the core instance `String.decLt` is pinned so the definition
evaluates inside the kernel.) -/
def pyMaxStr (a b : String) : String :=
  @ite _ (a < b) (decidable_of_iff (a.toList < b.toList) String.lt_iff_toList_lt.symm) b a

/-- Python `max(a, b)` on two optional strings; comparing `None` with
anything raises `TypeError`, modelled as `Except.error ()` (lines 139–141). -/
def pyMaxDate : Option String → Option String → Except Unit (Option String)
  | some a, some b => Except.ok (some (pyMaxStr a b))
  | _, _ => Except.error ()

instance {ε α : Type} [DecidableEq ε] [DecidableEq α] : DecidableEq (Except ε α) := fun a b =>
  match a, b with
  | Except.error e, Except.error f =>
    if h : e = f then isTrue (by rw [h]) else isFalse (by intro hh; injection hh; contradiction)
  | Except.ok x, Except.ok y =>
    if h : x = y then isTrue (by rw [h]) else isFalse (by intro hh; injection hh; contradiction)
  | Except.error _, Except.ok _ => isFalse (by intro hh; cases hh)
  | Except.ok _, Except.error _ => isFalse (by intro hh; cases hh)

/-! ## The aggregation fold (`aggregate_email_data`, lines 121–143) -/

/-- The `email_stats` dict: an insertion-ordered association list. -/
abbrev Stats := List (String × Summary)

def lookupStats : Stats → String → Option Summary
  | [], _ => none
  | (k, v) :: rest, r => if k = r then some v else lookupStats rest r

/-- Dict assignment: replace the first binding of `r`, else append (Python
dicts append new keys at the end of insertion order). -/
def setStats : Stats → String → Summary → Stats
  | [], r, s => [(r, s)]
  | (k, v) :: rest, r, s =>
    if k = r then (k, s) :: rest else (k, v) :: setStats rest r s

/-- The body of the inner `for recipient in set(recipients)` loop for one
recipient: initialise on first sight (lines 129–136), then
`Total Mails Sent += recipients.count(recipient)` (line 138) and the
`max`-merge of `Last Interacted Date` (lines 139–141). -/
def stepRecipient (e : Email) (recips : List String) (stats : Stats)
    (r : String) : Except Unit Stats :=
  let cur : Summary :=
    match lookupStats stats r with
    | some s => s
    | none =>
      { recipientEmail := r
        company := domainOf r
        totalMailsSent := 0
        name := nameOf e r
        lastInteractedDate := format_date_for_airtable e.received }
  match pyMaxDate cur.lastInteractedDate (format_date_for_airtable e.received) with
  | Except.error u => Except.error u
  | Except.ok d =>
    Except.ok (setStats stats r
      { cur with
        totalMailsSent := cur.totalMailsSent + countOccIn r recips
        lastInteractedDate := d })

/-- Fold `stepRecipient` over the deduplicated recipient list. -/
def processRecips (e : Email) (recips : List String) :
    Stats → List String → Except Unit Stats
  | stats, [] => Except.ok stats
  | stats, r :: rs =>
    match stepRecipient e recips stats r with
    | Except.error u => Except.error u
    | Except.ok stats' => processRecips e recips stats' rs

/-- Process one record of the outer `for email in email_data` loop. -/
def processEmail (stats : Stats) (e : Email) : Except Unit Stats :=
  processRecips e (allRecipients e) stats (dedupKeep (allRecipients e))

def aggAux : Stats → List Email → Except Unit Stats
  | stats, [] => Except.ok stats
  | stats, e :: rest =>
    match processEmail stats e with
    | Except.error u => Except.error u
    | Except.ok stats' => aggAux stats' rest

/-- Embeds `main.aggregate_email_data`: fold all records into `email_stats`
and return `list(email_stats.values())`; an uncaught `TypeError` from the
`max`-merge is `Except.error ()`. -/
def aggregate_email_data (email_data : List Email) :
    Except Unit (List Summary) :=
  match aggAux [] email_data with
  | Except.error u => Except.error u
  | Except.ok stats => Except.ok (stats.map Prod.snd)

/-- Look a recipient up in the returned value list (keys are unique, so the
first hit is the recipient's summary). -/
def findSummary (out : List Summary) (r : String) : Option Summary :=
  out.find? (fun s => s.recipientEmail = r)

/-! ## The reconciler (`push_to_airtable`, lines 166–208)

Only the pure plan-building part (which entries become inserts, which become
updates) is embedded; the surrounding HTTP traffic is external. -/

/-- One record of the fetched Airtable snapshot: `record["id"]` and the
fields read by the reconciler.  `record["fields"]["Recipient Email"]` is a
mandatory key (a `KeyError` otherwise); the two tracked fields are read with
`.get` and may be absent. -/
structure AirRecord where
  id : String
  recipientEmailField : String
  totalMailsSentField : Option Nat
  lastInteractedField : Option String
  deriving Repr, DecidableEq

/-- `existing_records_dict` (lines 168–171): a dict comprehension keyed by
the RAW stored `record["fields"]["Recipient Email"]`; on duplicate keys the
last record wins, hence the lookup searches the reversed list. -/
def dictOfRecords (records : List AirRecord) (k : String) : Option AirRecord :=
  records.reverse.find? (fun rec => rec.recipientEmailField = k)

/-- Python `str.isspace` characters stripped by `.strip()` (the ASCII ones;
Unicode space variants are omitted — no claim involves them). -/
def pyIsSpace (c : Char) : Bool :=
  c = ' ' ∨ c = '\t' ∨ c = '\n' ∨ c = '\r' ∨ c = '\x0b' ∨ c = '\x0c'

/-- `str.lower()` on one character (the ASCII range; Python also lowercases
non-ASCII letters — no claim involves them). -/
def pyLowerChar (c : Char) : Char :=
  if 65 ≤ c.toNat ∧ c.toNat ≤ 90 then Char.ofNat (c.toNat + 32) else c

/-- `entry["Recipient Email"].strip().lower()` (line 181): drop leading and
trailing whitespace, then lowercase. -/
def normalizeAddr (s : String) : String :=
  String.mk ((((s.data.dropWhile pyIsSpace).reverse.dropWhile
    pyIsSpace).reverse).map pyLowerChar)

/-- `last_interacted.replace("/", "-")` (line 194). -/
def replaceSlashDash (s : String) : String :=
  String.mk (s.toList.map (fun c => if c = '/' then '-' else c))

/-- An update queued by the reconciler (lines 199–205): the destination id
plus the two tracked fields, the date kept with `/` separators. -/
structure UpdateRec where
  id : String
  totalMailsSent : Nat
  lastInteractedDate : Option String
  deriving Repr, DecidableEq

inductive EntryChoice where
  | ins (s : Summary)
  | upd (u : UpdateRec)
  | skip
  deriving Repr, DecidableEq

/-- The body of the `for entry in aggregated_data` loop (lines 180–208):
look the normalized address up in the raw-keyed dict; when found, compare
`Total Mails Sent`, then (short-circuit `or`) compare the stored date with
the freshly formatted date after `"/"` → `"-"` replacement.  When the entry
has no date (`None`) and the totals agree, `.replace` on `None` raises an
`AttributeError`, modelled as `Except.error ()`. -/
def stepEntry (existing : List AirRecord) (entry : Summary) :
    Except Unit EntryChoice :=
  match dictOfRecords existing (normalizeAddr entry.recipientEmail) with
  | none => Except.ok (EntryChoice.ins entry)
  | some rec =>
    if rec.totalMailsSentField ≠ some entry.totalMailsSent then
      Except.ok (EntryChoice.upd
        ⟨rec.id, entry.totalMailsSent, entry.lastInteractedDate⟩)
    else
      match entry.lastInteractedDate with
      | none => Except.error ()
      | some d =>
        if rec.lastInteractedField ≠ some (replaceSlashDash d) then
          Except.ok (EntryChoice.upd ⟨rec.id, entry.totalMailsSent, some d⟩)
        else Except.ok EntryChoice.skip

/-- Embeds the plan-building loop of `push_to_airtable`: the insert list
(`new_records`) and update list (`update_records`), in iteration order. -/
def buildPlan (existing : List AirRecord) :
    List Summary → Except Unit (List Summary × List UpdateRec)
  | [] => Except.ok ([], [])
  | entry :: rest =>
    match stepEntry existing entry with
    | Except.error u => Except.error u
    | Except.ok c =>
      match buildPlan existing rest with
      | Except.error u => Except.error u
      | Except.ok (news, upds) =>
        match c with
        | EntryChoice.ins s => Except.ok (s :: news, upds)
        | EntryChoice.upd u => Except.ok (news, u :: upds)
        | EntryChoice.skip => Except.ok (news, upds)

/-! ## The fetcher (`fetch_sent_emails`, lines 82–118) and the pipeline
(`main`, lines 228–292)

The fetch loop is a pure function of a response oracle (attempt index ↦
`some messages` for HTTP 200, `none` for any other status).  It also
receives the run's cancellation oracle: the Python function body never
reads the stop flag, and the embedding reflects that by ignoring it. -/

def MAX_RETRIES : Nat := 3
def RETRY_DELAY : Nat := 10

/-- Observable effects of one `fetch_sent_emails` call: requests issued,
`time.sleep(RETRY_DELAY)` calls, records appended to the shared buffer, and
whether the batch was logged as permanently failed. -/
structure FetchResult where
  requests : Nat
  sleeps : Nat
  appended : List Email
  failed : Bool
  deriving Repr, DecidableEq

/-- The `while retries < MAX_RETRIES` loop: on status 200 append and return;
otherwise log, increment `retries`, sleep, and go round again (note the
sleep also runs after the final failed attempt).  The first argument is the
remaining attempt budget `MAX_RETRIES - retries`, then the current attempt
index, request count and sleep count. -/
def fetchLoop (resp : Nat → Option (List Email)) :
    Nat → Nat → Nat → Nat → FetchResult
  | 0, _, reqs, slps =>
    { requests := reqs, sleeps := slps, appended := [], failed := true }
  | fuel + 1, retries, reqs, slps =>
    match resp retries with
    | some msgs =>
      { requests := reqs + 1, sleeps := slps, appended := msgs, failed := false }
    | none => fetchLoop resp fuel (retries + 1) (reqs + 1) (slps + 1)

/-- Embeds `main.fetch_sent_emails` for one batch.  `cancel` is the run's
shared stop flag indexed by poll point; the function body contains no poll
of it, so the argument is unused — faithful to the source. -/
def fetch_sent_emails (resp : Nat → Option (List Email))
    (cancel : Nat → Bool) : FetchResult :=
  fetchLoop resp MAX_RETRIES 0 0 0

/-- Embeds `process_batch` (lines 254–262): poll `should_stop()` once before
starting; when stopped, return `None` without issuing any request. -/
def process_batch (stopNow : Bool) (resp : Nat → Option (List Email))
    (cancel : Nat → Bool) : FetchResult :=
  if stopNow then ⟨0, 0, [], false⟩ else fetch_sent_emails resp cancel

/-- Outcome of one `main` run in the sequential model. -/
structure RunResult where
  collected : List Email
  aggregated : Option (Except Unit (List Summary))
  pushed : Bool
  stoppedEarly : Bool
  deriving Repr

def isOkB {α : Type} : Except Unit α → Bool
  | Except.ok _ => true
  | Except.error _ => false

/-- The submission loop of `main` (lines 264–273) in the sequential model:
before submitting batch `b` the loop polls the stop flag (poll `poll`); a
`True` poll cancels pending futures and returns from `main`.  Otherwise the
batch runs `process_batch`, whose own poll is `poll + 1`, and its records
are appended to the shared buffer.  Returns the buffer, the next free poll
index, and whether `main` returned early. -/
def runBatches (resp : Nat → Nat → Option (List Email)) (cancel : Nat → Bool) :
    Nat → Nat → Nat → List Email → List Email × Nat × Bool
  | 0, _, poll, acc => (acc, poll, false)
  | remaining + 1, b, poll, acc =>
    if cancel poll then (acc, poll + 1, true)
    else
      runBatches resp cancel remaining (b + 1) (poll + 2)
        (acc ++ (process_batch (cancel (poll + 1)) (resp b) cancel).appended)

/-- The `as_completed` loop (lines 275–284) in the sequential model: all
futures already completed, so the loop only polls the flag once per future,
breaking (and cancelling the rest) on a `True` poll.  Returns the poll
index at which the final `if not should_stop()` check (line 286) reads the
flag. -/
def drainPolls (cancel : Nat → Bool) : Nat → Nat → Nat
  | poll, 0 => poll
  | poll, n + 1 => if cancel poll then poll + 1 else drainPolls cancel (poll + 1) n

/-- Sequential model of `main` (lines 228–292): initial stop checks (polls
0 and 1, around token/count acquisition, both assumed to succeed — auth
failure is external), the submission loop, the `as_completed` polls, and the
final check guarding `aggregate_email_data` + `push_to_airtable`.  `pushed`
is true iff aggregation ran and did not raise (line 289–290: an exception in
`aggregate_email_data` skips `push_to_airtable`). -/
def mainModel (total : Nat) (resp : Nat → Nat → Option (List Email))
    (cancel : Nat → Bool) : RunResult :=
  if cancel 0 then ⟨[], none, false, true⟩
  else if cancel 1 then ⟨[], none, false, true⟩
  else
    match runBatches resp cancel total 0 2 [] with
    | (acc, _, true) => ⟨acc, none, false, true⟩
    | (acc, poll, false) =>
      let fin := drainPolls cancel poll total
      if cancel fin then ⟨acc, none, false, true⟩
      else
        let agg := aggregate_email_data acc
        ⟨acc, some agg, isOkB agg, false⟩

/-! ## The progress callback and the `should_stop` probe

`main.should_stop` (lines 230–231) is
`hasattr(callback_fn, '__self__') and callback_fn.__self__.should_stop()`:
attribute probing on the progress sink.  A callback is `None`, a plain
function (no `__self__`), or a bound method whose `__self__` may or may not
expose a `should_stop` method (modelled as an optional poll-indexed flag,
as `ThreadSafeLogger.is_stopped` in `src/app.py`). -/

inductive Callback where
  | noCallback
  | plainFn
  | boundMethod (stopFlag : Option (Nat → Bool))

/-- `hasattr(callback_fn, '__self__')`. -/
def hasSelfAttr : Callback → Bool
  | Callback.boundMethod _ => true
  | _ => false

/-- The `should_stop` closure inside `main` at poll point `p`: short-circuit
`False` when the callback has no `__self__`; otherwise call
`callback_fn.__self__.should_stop()` — an `AttributeError` (modelled as
`Except.error ()`) when the bound object lacks that method. -/
def mainShouldStop (cb : Callback) (p : Nat) : Except Unit Bool :=
  match cb with
  | Callback.boundMethod (some flag) => Except.ok (flag p)
  | Callback.boundMethod none => Except.error ()
  | _ => Except.ok false

/-- `ThreadSafeLogger.add_log` passed as `callback_fn` by
`app.process_emails` (lines 74–80): a bound method whose `__self__` exposes
`should_stop` returning `is_stopped` (lines 62–64). -/
def threadSafeLoggerCallback (isStopped : Nat → Bool) : Callback :=
  Callback.boundMethod (some isStopped)

/-! ## Specification-side quantities for the aggregator -/

/-- Sum over all records of the occurrences of `r` in `to`, `cc` and `bcc`. -/
def totalCount (r : String) (emails : List Email) : Nat :=
  (emails.map
    (fun e => countOccIn r e.toRecipients + countOccIn r e.cc + countOccIn r e.bcc)).sum

/-- Does record `e` contribute to recipient `r`? -/
def contribB (r : String) (e : Email) : Bool := decide (r ∈ allRecipients e)

/-- Formatted received dates of all records contributing to `r`, in order. -/
def datesFor (r : String) (emails : List Email) : List String :=
  (emails.filter (fun e => contribB r e)).filterMap
    (fun e => format_date_for_airtable e.received)

/-- A record the aggregation fold survives: either it touches no recipient,
or its timestamp parses. -/
def goodEmail (e : Email) : Prop :=
  allRecipients e = [] ∨ (format_date_for_airtable e.received).isSome

/-- Every stored summary's `recipientEmail` equals its dict key. -/
def keysOk (stats : Stats) : Prop :=
  ∀ p ∈ stats, (p.2 : Summary).recipientEmail = p.1

/-- Proof-side description of what `stepRecipient` stores for recipient `r`
of a record whose formatted date is `d` (the `getD` branch in the `some`
case is unreachable: stored dates are always `some` when the fold has not
raised). -/
def touched (e : Email) (recips : List String) (d : String) (r : String) :
    Option Summary → Summary
  | some s =>
    { s with
      totalMailsSent := s.totalMailsSent + countOccIn r recips
      lastInteractedDate := some (pyMaxStr (s.lastInteractedDate.getD d) d) }
  | none =>
    { recipientEmail := r
      company := domainOf r
      totalMailsSent := 0 + countOccIn r recips
      name := nameOf e r
      lastInteractedDate := some (pyMaxStr d d) }

/-- After folding `processed`, the dict stores, for every recipient seen so
far: the recipient itself, its domain, the running total (equal to the
occurrence sum over the processed records), and a date that is the maximum
of the formatted dates of the contributing processed records. -/
def statInv (processed : List Email) (stats : Stats) : Prop :=
  (∀ r, lookupStats stats r = none → totalCount r processed = 0) ∧
  (∀ r s, lookupStats stats r = some s →
    s.recipientEmail = r ∧ s.company = domainOf r ∧
    s.totalMailsSent = totalCount r processed ∧
    0 < totalCount r processed ∧
    ∃ m, s.lastInteractedDate = some m ∧ m ∈ datesFor r processed ∧
      ∀ x ∈ datesFor r processed, x ≤ m)

/-! ## Elementary lemmas -/

theorem countOccIn_append (r : String) (a b : List String) :
    countOccIn r (a ++ b) = countOccIn r a + countOccIn r b := by
  induction a with
  | nil => simp [countOccIn]
  | cons x xs ih => simp [countOccIn, ih]; omega

theorem countOccIn_eq_zero (r : String) (l : List String) :
    countOccIn r l = 0 ↔ r ∉ l := by
  induction l with
  | nil => simp [countOccIn]
  | cons x xs ih =>
    by_cases h : x = r
    · subst h; simp [countOccIn, ih]
    · simp [countOccIn, h, ih, Ne.symm h]

theorem countOccIn_pos (r : String) (l : List String) :
    0 < countOccIn r l ↔ r ∈ l := by
  rw [Nat.pos_iff_ne_zero, Ne, countOccIn_eq_zero, not_not]

theorem countOccIn_allRecipients (r : String) (e : Email) :
    countOccIn r (allRecipients e) =
      countOccIn r e.toRecipients + countOccIn r e.cc + countOccIn r e.bcc := by
  simp [allRecipients, countOccIn_append, Nat.add_assoc]

theorem mem_dedupKeep (r : String) (l : List String) :
    r ∈ dedupKeep l ↔ r ∈ l := by
  induction l with
  | nil => simp [dedupKeep]
  | cons x xs ih =>
    by_cases h : r = x
    · subst h; simp [dedupKeep]
    · simp [dedupKeep, h, List.mem_filter, ih]

theorem nodup_dedupKeep (l : List String) : (dedupKeep l).Nodup := by
  induction l with
  | nil => simp [dedupKeep]
  | cons x xs ih =>
    refine List.Nodup.cons ?_ (ih.filter _)
    intro hx
    rcases List.mem_filter.mp hx with ⟨-, hne⟩
    simp at hne

theorem pyMaxStr_self (a : String) : pyMaxStr a a = a := by
  simp [pyMaxStr]

theorem le_pyMaxStr_left (a b : String) : a ≤ pyMaxStr a b := by
  unfold pyMaxStr
  split
  · exact le_of_lt (by assumption)
  · exact le_refl a

theorem le_pyMaxStr_right (a b : String) : b ≤ pyMaxStr a b := by
  unfold pyMaxStr
  split
  · exact le_refl b
  · exact le_of_not_lt (by assumption)

theorem pyMaxStr_cases (a b : String) : pyMaxStr a b = a ∨ pyMaxStr a b = b := by
  unfold pyMaxStr
  split
  · exact Or.inr rfl
  · exact Or.inl rfl

theorem totalCount_append (r : String) (a b : List Email) :
    totalCount r (a ++ b) = totalCount r a + totalCount r b := by
  simp [totalCount]

theorem totalCount_singleton (r : String) (e : Email) :
    totalCount r [e] = countOccIn r (allRecipients e) := by
  simp [totalCount, countOccIn_allRecipients]

theorem datesFor_append (r : String) (a b : List Email) :
    datesFor r (a ++ b) = datesFor r a ++ datesFor r b := by
  simp [datesFor]

theorem datesFor_singleton_mem (r : String) (e : Email) (d : String)
    (hm : r ∈ allRecipients e) (hd : format_date_for_airtable e.received = some d) :
    datesFor r [e] = [d] := by
  simp [datesFor, List.filter, contribB, hm, List.filterMap, hd]

theorem datesFor_singleton_not_mem (r : String) (e : Email)
    (hm : r ∉ allRecipients e) : datesFor r [e] = [] := by
  simp [datesFor, List.filter, contribB, hm]

theorem datesFor_nil_of_totalCount_zero (r : String) (emails : List Email)
    (h : totalCount r emails = 0) : datesFor r emails = [] := by
  induction emails with
  | nil => simp [datesFor]
  | cons e rest ih =>
    have he : countOccIn r (allRecipients e) = 0 ∧ totalCount r rest = 0 := by
      have := h
      simp [totalCount, countOccIn_allRecipients] at this ⊢
      omega
    have hm : r ∉ allRecipients e := (countOccIn_eq_zero r _).mp he.1
    have : datesFor r (e :: rest) = datesFor r [e] ++ datesFor r rest := by
      simpa using datesFor_append r [e] rest
    rw [this, datesFor_singleton_not_mem r e hm, ih he.2, List.nil_append]

/-! ## Association-list dictionary lemmas -/

theorem lookupStats_setStats (stats : Stats) (r r' : String) (s : Summary) :
    lookupStats (setStats stats r s) r' =
      if r' = r then some s else lookupStats stats r' := by
  induction stats with
  | nil =>
    by_cases h : r' = r
    · subst h; simp [setStats, lookupStats]
    · have h2 : ¬ r = r' := fun hh => h hh.symm
      simp [setStats, lookupStats, h, h2]
  | cons p rest ih =>
    obtain ⟨k, v⟩ := p
    by_cases hk : k = r
    · subst hk
      by_cases h : r' = k
      · subst h; simp [setStats, lookupStats]
      · have h2 : ¬ k = r' := fun hh => h hh.symm
        simp [setStats, lookupStats, h, h2]
    · by_cases h : k = r'
      · subst h
        simp [setStats, lookupStats, hk]
      · simp [setStats, lookupStats, hk, h, ih]

theorem mem_setStats (stats : Stats) (r : String) (s : Summary)
    (p : String × Summary) (hp : p ∈ setStats stats r s) :
    p = (r, s) ∨ p ∈ stats := by
  induction stats with
  | nil => simpa [setStats] using hp
  | cons q rest ih =>
    obtain ⟨k, v⟩ := q
    by_cases hk : k = r
    · subst hk
      rw [setStats, if_pos rfl, List.mem_cons] at hp
      rcases hp with h1 | h1
      · exact Or.inl h1
      · exact Or.inr (List.mem_cons_of_mem _ h1)
    · rw [setStats, if_neg hk, List.mem_cons] at hp
      rcases hp with h1 | h1
      · exact Or.inr (by simp [h1])
      · rcases ih h1 with h2 | h2
        · exact Or.inl h2
        · exact Or.inr (List.mem_cons_of_mem _ h2)

theorem lookupStats_mem (stats : Stats) (r : String) (s : Summary)
    (h : lookupStats stats r = some s) : (r, s) ∈ stats := by
  induction stats with
  | nil => simp [lookupStats] at h
  | cons p rest ih =>
    obtain ⟨k, v⟩ := p
    by_cases hk : k = r
    · subst hk
      simp [lookupStats] at h
      simp [h]
    · simp [lookupStats, hk] at h
      exact List.mem_cons_of_mem _ (ih h)

theorem findSummary_map_snd (stats : Stats) (hk : keysOk stats) (r : String) :
    findSummary (stats.map Prod.snd) r = lookupStats stats r := by
  induction stats with
  | nil => simp [findSummary, lookupStats]
  | cons p rest ih =>
    obtain ⟨k, v⟩ := p
    have hv : v.recipientEmail = k := hk (k, v) (List.mem_cons_self _ _)
    have hk' : keysOk rest := fun q hq => hk q (List.mem_cons_of_mem _ hq)
    by_cases h : k = r
    · subst h
      simp [findSummary, lookupStats, hv]
    · have hne : ¬ (v.recipientEmail = r) := by rw [hv]; exact h
      simp only [findSummary, List.map_cons, lookupStats, if_neg h]
      rw [List.find?_cons_of_neg _ (by simpa using hne)]
      exact ih hk'

/-! ## Characterizing one step of the aggregation fold -/

theorem stepRecipient_eq (e : Email) (recips : List String) (stats : Stats)
    (r d : String) (hd : format_date_for_airtable e.received = some d)
    (hds : ∀ s, lookupStats stats r = some s → s.lastInteractedDate.isSome) :
    stepRecipient e recips stats r =
      Except.ok (setStats stats r (touched e recips d r (lookupStats stats r))) := by
  cases hl : lookupStats stats r with
  | none => simp [stepRecipient, touched, hl, hd, pyMaxDate]
  | some s =>
    have hs : s.lastInteractedDate.isSome := hds s hl
    cases hm : s.lastInteractedDate with
    | none => rw [hm] at hs; simp at hs
    | some m => simp [stepRecipient, touched, hl, hd, hm, pyMaxDate]

theorem stepRecipient_err (e : Email) (recips : List String) (stats : Stats)
    (r : String) (hd : format_date_for_airtable e.received = none) :
    stepRecipient e recips stats r = Except.error () := by
  cases hl : lookupStats stats r with
  | none => simp [stepRecipient, hl, hd, pyMaxDate]
  | some s =>
    cases hm : s.lastInteractedDate with
    | none => simp [stepRecipient, hl, hd, hm, pyMaxDate]
    | some m => simp [stepRecipient, hl, hd, hm, pyMaxDate]

theorem processRecips_char (e : Email) (recips : List String) (d : String)
    (hd : format_date_for_airtable e.received = some d) :
    ∀ todo stats, todo.Nodup →
      (∀ k s, lookupStats stats k = some s → s.lastInteractedDate.isSome) →
      keysOk stats →
      ∃ stats', processRecips e recips stats todo = Except.ok stats' ∧
        (∀ r', lookupStats stats' r' =
          if r' ∈ todo then
            some (touched e recips d r' (lookupStats stats r'))
          else lookupStats stats r') ∧
        keysOk stats' := by
  intro todo
  induction todo with
  | nil =>
    intro stats _ _ hk
    exact ⟨stats, rfl, by simp [processRecips], hk⟩
  | cons t ts ih =>
    intro stats hnd hds hk
    have htts : t ∉ ts := (List.nodup_cons.mp hnd).1
    have hstep := stepRecipient_eq e recips stats t d hd (fun s hs => hds t s hs)
    have hlook1 : ∀ r', lookupStats (setStats stats t (touched e recips d t (lookupStats stats t))) r' =
        if r' = t then some (touched e recips d t (lookupStats stats t))
        else lookupStats stats r' :=
      fun r' => lookupStats_setStats stats t r' _
    have hds1 : ∀ k s,
        lookupStats (setStats stats t (touched e recips d t (lookupStats stats t))) k = some s →
        s.lastInteractedDate.isSome := by
      intro k s hks
      rw [hlook1 k] at hks
      by_cases hkt : k = t
      · rw [if_pos hkt] at hks
        injection hks with hks
        subst hks
        cases hcur : lookupStats stats t <;> simp [touched, hcur]
      · rw [if_neg hkt] at hks
        exact hds k s hks
    have hk1 : keysOk (setStats stats t (touched e recips d t (lookupStats stats t))) := by
      intro p hp
      rcases mem_setStats stats t _ p hp with h | h
      · subst h
        cases hcur : lookupStats stats t with
        | none => simp [touched]
        | some s =>
          have hself := hk (t, s) (lookupStats_mem stats t s hcur)
          simpa [touched] using hself
      · exact hk p h
    obtain ⟨stats', hrun, hchar, hk'⟩ := ih _ (List.Nodup.of_cons hnd) hds1 hk1
    refine ⟨stats', ?_, ?_, hk'⟩
    · simp [processRecips, hstep, hrun]
    · intro r'
      by_cases hrt : r' = t
      · subst hrt
        rw [hchar r', if_neg htts, hlook1 r', if_pos rfl, if_pos (List.mem_cons_self r' ts)]
      · by_cases hrts : r' ∈ ts
        · rw [hchar r', if_pos hrts, hlook1 r', if_neg hrt,
            if_pos (List.mem_cons_of_mem t hrts)]
        · have : r' ∉ t :: ts := by simp [hrt, hrts]
          rw [hchar r', if_neg hrts, hlook1 r', if_neg hrt, if_neg this]

theorem processEmail_char_some (e : Email) (d : String) (stats : Stats)
    (hd : format_date_for_airtable e.received = some d)
    (hds : ∀ k s, lookupStats stats k = some s → s.lastInteractedDate.isSome)
    (hk : keysOk stats) :
    ∃ stats', processEmail stats e = Except.ok stats' ∧
      (∀ r', lookupStats stats' r' =
        if r' ∈ allRecipients e then
          some (touched e (allRecipients e) d r' (lookupStats stats r'))
        else lookupStats stats r') ∧
      keysOk stats' := by
  obtain ⟨stats', hrun, hchar, hk'⟩ :=
    processRecips_char e (allRecipients e) d hd (dedupKeep (allRecipients e)) stats
      (nodup_dedupKeep _) hds hk
  refine ⟨stats', hrun, ?_, hk'⟩
  intro r'
  rw [hchar r']
  by_cases h : r' ∈ allRecipients e
  · rw [if_pos ((mem_dedupKeep _ _).mpr h), if_pos h]
  · rw [if_neg (fun hh => h ((mem_dedupKeep _ _).mp hh)), if_neg h]

theorem processEmail_empty (e : Email) (stats : Stats)
    (h : allRecipients e = []) : processEmail stats e = Except.ok stats := by
  rw [processEmail, h]
  rfl

theorem processEmail_err (e : Email) (stats : Stats)
    (hne : allRecipients e ≠ []) (hd : format_date_for_airtable e.received = none) :
    processEmail stats e = Except.error () := by
  cases hre : allRecipients e with
  | nil => exact absurd hre hne
  | cons x xs =>
    rw [processEmail, hre]
    simp [dedupKeep, processRecips, stepRecipient_err e (x :: xs) stats x hd]

/-! ## The running invariant of the aggregation fold -/

theorem statInv_nil : statInv [] [] := by
  constructor
  · intro r _
    simp [totalCount]
  · intro r s hs
    simp [lookupStats] at hs

theorem statInv_dates (processed : List Email) (stats : Stats)
    (hinv : statInv processed stats) :
    ∀ k s, lookupStats stats k = some s → s.lastInteractedDate.isSome := by
  intro k s hs
  obtain ⟨-, -, -, -, m, hm, -, -⟩ := hinv.2 k s hs
  simp [hm]

theorem statInv_step_some (processed : List Email) (stats : Stats) (e : Email)
    (d : String) (hd : format_date_for_airtable e.received = some d)
    (hinv : statInv processed stats) (hk : keysOk stats) :
    ∃ stats', processEmail stats e = Except.ok stats' ∧
      statInv (processed ++ [e]) stats' ∧ keysOk stats' := by
  obtain ⟨stats', hrun, hchar, hk'⟩ :=
    processEmail_char_some e d stats hd (statInv_dates processed stats hinv) hk
  have htsplit : ∀ r, totalCount r (processed ++ [e]) =
      totalCount r processed + countOccIn r (allRecipients e) := by
    intro r
    rw [totalCount_append, totalCount_singleton]
  refine ⟨stats', hrun, ⟨?_, ?_⟩, hk'⟩
  · intro r hr
    rw [hchar r] at hr
    by_cases h : r ∈ allRecipients e
    · rw [if_pos h] at hr
      cases hr
    · rw [if_neg h] at hr
      have h0 := hinv.1 r hr
      have hc : countOccIn r (allRecipients e) = 0 := (countOccIn_eq_zero r _).mpr h
      rw [htsplit r, h0, hc]
  · intro r s hs
    rw [hchar r] at hs
    by_cases h : r ∈ allRecipients e
    · rw [if_pos h] at hs
      injection hs with hs
      subst hs
      have hpos : 0 < countOccIn r (allRecipients e) := (countOccIn_pos r _).mpr h
      have hdates : datesFor r (processed ++ [e]) = datesFor r processed ++ [d] := by
        rw [datesFor_append, datesFor_singleton_mem r e d h hd]
      cases hcur : lookupStats stats r with
      | none =>
        have h0 := hinv.1 r hcur
        have hnil : datesFor r processed = [] :=
          datesFor_nil_of_totalCount_zero r processed h0
        simp only [touched]
        refine ⟨trivial, trivial, ?_, ?_, d, ?_, ?_, ?_⟩
        · rw [htsplit r, h0]
        · rw [htsplit r, h0]
          omega
        · rw [pyMaxStr_self]
        · rw [hdates, hnil]
          simp
        · intro x hx
          rw [hdates, hnil] at hx
          simp at hx
          exact le_of_eq hx
      | some sOld =>
        obtain ⟨ho1, ho2, ho3, ho4, mOld, hmOld, hmemOld, hubOld⟩ := hinv.2 r sOld hcur
        simp only [touched]
        refine ⟨ho1, ho2, ?_, ?_, pyMaxStr mOld d, ?_, ?_, ?_⟩
        · rw [htsplit r, ho3]
        · rw [htsplit r]
          omega
        · simp [hmOld]
        · rw [hdates]
          rcases pyMaxStr_cases mOld d with hcase | hcase
          · rw [hcase]
            exact List.mem_append_left _ hmemOld
          · rw [hcase]
            exact List.mem_append_right _ (by simp)
        · intro x hx
          rw [hdates] at hx
          rcases List.mem_append.mp hx with hx' | hx'
          · exact le_trans (hubOld x hx') (le_pyMaxStr_left mOld d)
          · simp at hx'
            rw [hx']
            exact le_pyMaxStr_right mOld d
    · rw [if_neg h] at hs
      obtain ⟨ho1, ho2, ho3, ho4, m, hm, hmem, hub⟩ := hinv.2 r s hs
      have hc : countOccIn r (allRecipients e) = 0 := (countOccIn_eq_zero r _).mpr h
      have hdf : datesFor r (processed ++ [e]) = datesFor r processed := by
        rw [datesFor_append, datesFor_singleton_not_mem r e h, List.append_nil]
      refine ⟨ho1, ho2, ?_, ?_, m, hm, ?_, ?_⟩
      · rw [htsplit r, hc]
        omega
      · rw [htsplit r, hc]
        omega
      · rw [hdf]
        exact hmem
      · rw [hdf]
        exact hub

theorem statInv_step_empty (processed : List Email) (stats : Stats) (e : Email)
    (hre : allRecipients e = []) (hinv : statInv processed stats) :
    statInv (processed ++ [e]) stats := by
  have ht : ∀ r, totalCount r (processed ++ [e]) = totalCount r processed := by
    intro r
    rw [totalCount_append, totalCount_singleton, hre]
    simp [countOccIn]
  have hdf : ∀ r, datesFor r (processed ++ [e]) = datesFor r processed := by
    intro r
    rw [datesFor_append, datesFor_singleton_not_mem r e (by simp [hre]), List.append_nil]
  constructor
  · intro r hr
    rw [ht r]
    exact hinv.1 r hr
  · intro r s hs
    obtain ⟨h1, h2, h3, h4, m, hm, hmem, hub⟩ := hinv.2 r s hs
    refine ⟨h1, h2, ?_, ?_, m, hm, ?_, ?_⟩
    · rw [ht r]
      exact h3
    · rw [ht r]
      exact h4
    · rw [hdf r]
      exact hmem
    · rw [hdf r]
      exact hub

theorem aggAux_ok (emails : List Email) :
    ∀ processed stats, statInv processed stats → keysOk stats →
      (∀ e ∈ emails, goodEmail e) →
      ∃ stats', aggAux stats emails = Except.ok stats' ∧
        statInv (processed ++ emails) stats' ∧ keysOk stats' := by
  induction emails with
  | nil =>
    intro processed stats hinv hk _
    exact ⟨stats, rfl, by simpa using hinv, hk⟩
  | cons e rest ih =>
    intro processed stats hinv hk hg
    have hassoc : (processed ++ [e]) ++ rest = processed ++ e :: rest := by
      simp
    rcases hg e (List.mem_cons_self e rest) with hre | hfmt
    · have hrun := processEmail_empty e stats hre
      obtain ⟨stats', hrun', hinv', hk'⟩ :=
        ih (processed ++ [e]) stats (statInv_step_empty processed stats e hre hinv) hk
          (fun e' he' => hg e' (List.mem_cons_of_mem _ he'))
      refine ⟨stats', ?_, ?_, hk'⟩
      · rw [aggAux, hrun]
        exact hrun'
      · rw [← hassoc]
        exact hinv'
    · cases hfd : format_date_for_airtable e.received with
      | none =>
        rw [hfd] at hfmt
        simp at hfmt
      | some d =>
        obtain ⟨stats1, hrun, hinv1, hk1⟩ :=
          statInv_step_some processed stats e d hfd hinv hk
        obtain ⟨stats', hrun', hinv', hk'⟩ :=
          ih (processed ++ [e]) stats1 hinv1 hk1
            (fun e' he' => hg e' (List.mem_cons_of_mem _ he'))
        refine ⟨stats', ?_, ?_, hk'⟩
        · rw [aggAux, hrun]
          exact hrun'
        · rw [← hassoc]
          exact hinv'

theorem aggAux_err (emails : List Email) :
    ∀ stats, (∀ k s, lookupStats stats k = some s → s.lastInteractedDate.isSome) →
      keysOk stats →
      (∃ e ∈ emails, ¬ goodEmail e) →
      aggAux stats emails = Except.error () := by
  induction emails with
  | nil =>
    intro stats _ _ h
    simp at h
  | cons e rest ih =>
    intro stats hds hk hbad
    by_cases hge : goodEmail e
    · have hbad' : ∃ e' ∈ rest, ¬ goodEmail e' := by
        rcases hbad with ⟨e', he', hb⟩
        rcases List.mem_cons.mp he' with h | h
        · rw [h] at hb
          exact absurd hge hb
        · exact ⟨e', h, hb⟩
      rcases hge with hre | hfmt
      · rw [aggAux, processEmail_empty e stats hre]
        exact ih stats hds hk hbad'
      · cases hfd : format_date_for_airtable e.received with
        | none =>
          rw [hfd] at hfmt
          simp at hfmt
        | some d =>
          obtain ⟨stats1, hrun, hchar, hk1⟩ := processEmail_char_some e d stats hfd hds hk
          have hds1 : ∀ k s, lookupStats stats1 k = some s → s.lastInteractedDate.isSome := by
            intro k s hs
            rw [hchar k] at hs
            by_cases hmem : k ∈ allRecipients e
            · rw [if_pos hmem] at hs
              injection hs with hs
              rw [← hs]
              cases hcur : lookupStats stats k <;> simp [touched, hcur]
            · rw [if_neg hmem] at hs
              exact hds k s hs
          rw [aggAux, hrun]
          exact ih stats1 hds1 hk1 hbad'
    · have hne : allRecipients e ≠ [] ∧ format_date_for_airtable e.received = none := by
        rw [goodEmail] at hge
        push_neg at hge
        exact ⟨hge.1, Option.not_isSome_iff_eq_none.mp hge.2⟩
      rw [aggAux, processEmail_err e stats hne.1 hne.2]

/-! ## The aggregate characterization -/

theorem aggregate_ok_of_good (emails : List Email)
    (hg : ∀ e ∈ emails, goodEmail e) :
    ∃ out, aggregate_email_data emails = Except.ok out := by
  obtain ⟨stats', hrun, -, -⟩ :=
    aggAux_ok emails [] [] statInv_nil (fun p hp => by simp at hp) hg
  exact ⟨stats'.map Prod.snd, by rw [aggregate_email_data, hrun]⟩

theorem aggregate_good_of_ok (emails : List Email) (out : List Summary)
    (h : aggregate_email_data emails = Except.ok out) :
    ∀ e ∈ emails, goodEmail e := by
  by_contra hbad
  push_neg at hbad
  obtain ⟨e, he, hb⟩ := hbad
  have herr := aggAux_err emails [] (by intro k s hs; simp [lookupStats] at hs)
    (fun p hp => by simp at hp) ⟨e, he, hb⟩
  rw [aggregate_email_data, herr] at h
  cases h

theorem aggregate_char (emails : List Email) (out : List Summary)
    (h : aggregate_email_data emails = Except.ok out) :
    (∀ r, findSummary out r = none → totalCount r emails = 0) ∧
    (∀ r s, findSummary out r = some s →
      s.recipientEmail = r ∧ s.company = domainOf r ∧
      s.totalMailsSent = totalCount r emails ∧ 0 < totalCount r emails ∧
      ∃ m, s.lastInteractedDate = some m ∧ m ∈ datesFor r emails ∧
        ∀ x ∈ datesFor r emails, x ≤ m) := by
  have hg := aggregate_good_of_ok emails out h
  obtain ⟨stats', hrun, hinv, hk'⟩ :=
    aggAux_ok emails [] [] statInv_nil (fun p hp => by simp at hp) hg
  rw [aggregate_email_data, hrun] at h
  injection h with h
  rw [List.nil_append] at hinv
  subst h
  constructor
  · intro r hr
    rw [findSummary_map_snd stats' hk' r] at hr
    exact hinv.1 r hr
  · intro r s hs
    rw [findSummary_map_snd stats' hk' r] at hs
    exact hinv.2 r s hs

/-! ## Order-invariance of the specification-side quantities -/

theorem totalCount_perm (r : String) (emails emails' : List Email)
    (h : emails.Perm emails') : totalCount r emails = totalCount r emails' := by
  rw [totalCount, totalCount]
  exact (h.map _).sum_eq

theorem mem_datesFor_perm (x r : String) (emails emails' : List Email)
    (h : emails.Perm emails') :
    x ∈ datesFor r emails ↔ x ∈ datesFor r emails' := by
  rw [datesFor, datesFor]
  exact ((h.filter _).filterMap _).mem_iff

/-! ## Reconciler lemmas -/

theorem dictOfRecords_eq_none (records : List AirRecord) (k : String) :
    dictOfRecords records k = none ↔
      ∀ rec ∈ records, rec.recipientEmailField ≠ k := by
  rw [dictOfRecords, List.find?_eq_none]
  constructor
  · intro h rec hrec
    have := h rec (List.mem_reverse.mpr hrec)
    simpa using this
  · intro h rec hrec
    have := h rec (List.mem_reverse.mp hrec)
    simpa using this

theorem stepEntry_skip (existing : List AirRecord) (entry : Summary)
    (rec : AirRecord)
    (hfind : dictOfRecords existing (normalizeAddr entry.recipientEmail) = some rec)
    (htot : rec.totalMailsSentField = some entry.totalMailsSent)
    (d : String) (hdate : entry.lastInteractedDate = some d)
    (hfield : rec.lastInteractedField = some (replaceSlashDash d)) :
    stepEntry existing entry = Except.ok EntryChoice.skip := by
  simp [stepEntry, hfind, htot, hdate, hfield]

theorem buildPlan_all_skip (existing : List AirRecord) :
    ∀ aggregated : List Summary,
      (∀ entry ∈ aggregated, ∃ rec,
        dictOfRecords existing (normalizeAddr entry.recipientEmail) = some rec ∧
        rec.totalMailsSentField = some entry.totalMailsSent ∧
        ∃ d, entry.lastInteractedDate = some d ∧
          rec.lastInteractedField = some (replaceSlashDash d)) →
      buildPlan existing aggregated = Except.ok ([], []) := by
  intro aggregated
  induction aggregated with
  | nil => intro _; rfl
  | cons entry rest ih =>
    intro h
    obtain ⟨rec, hfind, htot, d, hdate, hfield⟩ := h entry (List.mem_cons_self _ _)
    simp [buildPlan, stepEntry_skip existing entry rec hfind htot d hdate hfield,
      ih (fun e' he' => h e' (List.mem_cons_of_mem _ he'))]

theorem stepEntry_ins_iff (existing : List AirRecord) (entry : Summary) :
    stepEntry existing entry = Except.ok (EntryChoice.ins entry) ↔
      ∀ rec ∈ existing, rec.recipientEmailField ≠ normalizeAddr entry.recipientEmail := by
  rw [← dictOfRecords_eq_none]
  constructor
  · intro h
    cases hfind : dictOfRecords existing (normalizeAddr entry.recipientEmail) with
    | none => rfl
    | some rec =>
      exfalso
      simp only [stepEntry, hfind] at h
      by_cases htot : rec.totalMailsSentField ≠ some entry.totalMailsSent
      · rw [if_pos htot] at h
        simp at h
      · rw [if_neg htot] at h
        cases hdate : entry.lastInteractedDate with
        | none =>
          rw [hdate] at h
          simp at h
        | some d =>
          simp only [hdate] at h
          split at h <;> simp at h
  · intro h
    simp [stepEntry, h]

theorem buildPlan_singleton_ins (existing : List AirRecord) (entry : Summary)
    (h : ∀ rec ∈ existing, rec.recipientEmailField ≠ normalizeAddr entry.recipientEmail) :
    buildPlan existing [entry] = Except.ok ([entry], []) := by
  simp [buildPlan, (stepEntry_ins_iff existing entry).mpr h]

/-! ## Fetcher and pipeline lemmas -/

theorem fetch_allFail (resp : Nat → Option (List Email)) (c : Nat → Bool)
    (h : ∀ i, resp i = none) :
    fetch_sent_emails resp c = ⟨3, 3, [], true⟩ := by
  simp [fetch_sent_emails, MAX_RETRIES, fetchLoop, h 0, h 1, h 2]

theorem fetch_firstSuccess (resp : Nat → Option (List Email)) (c : Nat → Bool)
    (msgs : List Email) (h : resp 0 = some msgs) :
    fetch_sent_emails resp c = ⟨1, 0, msgs, false⟩ := by
  simp [fetch_sent_emails, MAX_RETRIES, fetchLoop, h]

theorem runBatches_noCancel (resp : Nat → Nat → Option (List Email))
    (cancel : Nat → Bool) (hc : ∀ p, cancel p = false) :
    ∀ remaining b poll acc,
      runBatches resp cancel remaining b poll acc =
        (acc ++ (((List.range' b remaining).map
          (fun k => (fetch_sent_emails (resp k) cancel).appended)).flatten),
         poll + 2 * remaining, false) := by
  intro remaining
  induction remaining with
  | zero =>
    intro b poll acc
    simp [runBatches]
  | succ n ih =>
    intro b poll acc
    rw [runBatches.eq_2, hc poll]
    simp only [Bool.false_eq_true, if_false]
    rw [hc (poll + 1)]
    have hpb : process_batch false (resp b) cancel = fetch_sent_emails (resp b) cancel := rfl
    rw [hpb]
    rw [ih (b + 1) (poll + 2)]
    rw [List.range'_succ]
    simp [List.append_assoc]
    omega

theorem mainModel_noCancel (total : Nat) (resp : Nat → Nat → Option (List Email))
    (cancel : Nat → Bool) (hc : ∀ p, cancel p = false) :
    mainModel total resp cancel =
      ⟨(((List.range total).map
          (fun k => (fetch_sent_emails (resp k) cancel).appended)).flatten),
        some (aggregate_email_data (((List.range total).map
          (fun k => (fetch_sent_emails (resp k) cancel).appended)).flatten)),
        isOkB (aggregate_email_data (((List.range total).map
          (fun k => (fetch_sent_emails (resp k) cancel).appended)).flatten)),
        false⟩ := by
  rw [mainModel, hc 0, hc 1]
  simp only [Bool.false_eq_true, if_false]
  rw [runBatches_noCancel resp cancel hc total 0 2 []]
  simp only [List.nil_append]
  rw [← List.range_eq_range']
  simp only [hc, Bool.false_eq_true, if_false]

theorem mainModel_cancelBeforeBatch1 (total : Nat)
    (resp : Nat → Nat → Option (List Email)) (cancel : Nat → Bool)
    (msgs : List Email) (ht : 2 ≤ total) (h0 : cancel 0 = false)
    (h1 : cancel 1 = false) (h2 : cancel 2 = false) (h3 : cancel 3 = false)
    (h4 : cancel 4 = true) (hr : resp 0 0 = some msgs) :
    mainModel total resp cancel = ⟨msgs, none, false, true⟩ := by
  obtain ⟨k, rfl⟩ : ∃ k, total = k + 2 := ⟨total - 2, by omega⟩
  rw [mainModel, h0, h1]
  simp only [Bool.false_eq_true, if_false]
  rw [runBatches.eq_2, h2]
  simp only [Bool.false_eq_true, if_false]
  rw [h3]
  have hpb : process_batch false (resp 0) cancel = fetch_sent_emails (resp 0) cancel := rfl
  rw [hpb, fetch_firstSuccess (resp 0) cancel msgs hr]
  rw [runBatches.eq_2, h4]
  simp

/-! ## Claims -/

/-- C1, counterexample: aggregation is NOT order-independent over the whole
summary.  Two records for the same recipient carrying different display
names produce different `Name` fields depending on order: the original
order yields `"Alice"`, the reversed order `"Bob"`. -/
theorem C1_counterexample :
    aggregate_email_data
        [⟨"s", "m", ["r@x.com"], [], [], "2024-01-02T03:04:05Z", [("r@x.com", "Alice")]⟩,
         ⟨"s", "m", ["r@x.com"], [], [], "2024-02-02T03:04:05Z", [("r@x.com", "Bob")]⟩] ≠
      aggregate_email_data
        [⟨"s", "m", ["r@x.com"], [], [], "2024-01-02T03:04:05Z", [("r@x.com", "Alice")]⟩,
         ⟨"s", "m", ["r@x.com"], [], [], "2024-02-02T03:04:05Z", [("r@x.com", "Bob")]⟩].reverse := by
  decide

/-- C1, amended: aggregation over a list and over any permutation of it
(in particular the reverse order) agrees on recipient presence and on every
field except `Name` (which is first-seen): `Recipient Email`,
`Company / Management`, `Total Mails Sent` and `Last Interacted Date`
coincide. -/
theorem C1_amended (emails emails' : List Email) (out out' : List Summary)
    (r : String) (hperm : emails.Perm emails')
    (h : aggregate_email_data emails = Except.ok out)
    (h' : aggregate_email_data emails' = Except.ok out') :
    ((findSummary out r).isSome ↔ (findSummary out' r).isSome) ∧
    (∀ s s', findSummary out r = some s → findSummary out' r = some s' →
      s.recipientEmail = s'.recipientEmail ∧ s.company = s'.company ∧
      s.totalMailsSent = s'.totalMailsSent ∧
      s.lastInteractedDate = s'.lastInteractedDate) := by
  obtain ⟨h1, h2⟩ := aggregate_char emails out h
  obtain ⟨h1P, h2P⟩ := aggregate_char emails' out' h'
  constructor
  · constructor
    · intro hsome
      cases hf : findSummary out r with
      | none => rw [hf] at hsome; simp at hsome
      | some s =>
        obtain ⟨-, -, -, hpos, -⟩ := h2 r s hf
        cases hfP : findSummary out' r with
        | none =>
          have h0 := h1P r hfP
          rw [← totalCount_perm r emails emails' hperm] at h0
          omega
        | some s' => simp
    · intro hsome
      cases hfP : findSummary out' r with
      | none => rw [hfP] at hsome; simp at hsome
      | some s' =>
        obtain ⟨-, -, -, hpos, -⟩ := h2P r s' hfP
        rw [← totalCount_perm r emails emails' hperm] at hpos
        cases hf : findSummary out r with
        | none =>
          have h0 := h1 r hf
          omega
        | some s => simp
  · intro s s' hf hfP
    obtain ⟨hr1, hr2, hr3, hpos, m, hm, hmem, hub⟩ := h2 r s hf
    obtain ⟨hr1P, hr2P, hr3P, hposP, m', hm', hmemP, hubP⟩ := h2P r s' hfP
    refine ⟨by rw [hr1, hr1P], by rw [hr2, hr2P], ?_, ?_⟩
    · rw [hr3, hr3P, totalCount_perm r emails emails' hperm]
    · rw [hm, hm']
      have hle : m ≤ m' :=
        hubP m ((mem_datesFor_perm m r emails emails' hperm).mp hmem)
      have hge : m' ≤ m :=
        hub m' ((mem_datesFor_perm m' r emails emails' hperm).mpr hmemP)
      rw [le_antisymm hle hge]

/-- C1, witness for the amended theorem at a concrete two-record run and a
genuine transposition of it (the counterexample's own lists): presence,
total and date agree even though the `Name` fields differ. -/
theorem C1_witness :
    ((findSummary [⟨"r@x.com", "x.com", 2, "Alice", some "2024/02/02"⟩] "r@x.com").isSome ↔
      (findSummary [⟨"r@x.com", "x.com", 2, "Bob", some "2024/02/02"⟩] "r@x.com").isSome) ∧
    ((⟨"r@x.com", "x.com", 2, "Alice", some "2024/02/02"⟩ : Summary).totalMailsSent =
      (⟨"r@x.com", "x.com", 2, "Bob", some "2024/02/02"⟩ : Summary).totalMailsSent ∧
     (⟨"r@x.com", "x.com", 2, "Alice", some "2024/02/02"⟩ : Summary).lastInteractedDate =
      (⟨"r@x.com", "x.com", 2, "Bob", some "2024/02/02"⟩ : Summary).lastInteractedDate) :=
  have hmain := C1_amended
    [⟨"s", "m", ["r@x.com"], [], [], "2024-01-02T03:04:05Z", [("r@x.com", "Alice")]⟩,
     ⟨"s", "m", ["r@x.com"], [], [], "2024-02-02T03:04:05Z", [("r@x.com", "Bob")]⟩]
    [⟨"s", "m", ["r@x.com"], [], [], "2024-02-02T03:04:05Z", [("r@x.com", "Bob")]⟩,
     ⟨"s", "m", ["r@x.com"], [], [], "2024-01-02T03:04:05Z", [("r@x.com", "Alice")]⟩]
    [⟨"r@x.com", "x.com", 2, "Alice", some "2024/02/02"⟩]
    [⟨"r@x.com", "x.com", 2, "Bob", some "2024/02/02"⟩] "r@x.com"
    (List.Perm.swap _ _ _) (by decide) (by decide)
  ⟨hmain.1,
   have hfields := hmain.2
     ⟨"r@x.com", "x.com", 2, "Alice", some "2024/02/02"⟩
     ⟨"r@x.com", "x.com", 2, "Bob", some "2024/02/02"⟩ (by decide) (by decide)
   ⟨hfields.2.2.1, hfields.2.2.2⟩⟩

/-- C2, counterexample: `fetch_sent_emails` never consults the cancellation
predicate.  With the stop flag constantly `true` and every attempt failing,
the claim requires at most one request and no sleeps after cancellation is
observed; the code performs 3 requests and 3 sleeps. -/
theorem C2_counterexample :
    fetch_sent_emails (fun _ => none) (fun _ => true) = ⟨3, 3, [], true⟩ ∧
    ¬ ((fetch_sent_emails (fun _ => none) (fun _ => true)).requests ≤ 1 ∧
       (fetch_sent_emails (fun _ => none) (fun _ => true)).sleeps = 0) := by
  decide

/-- C2, amended: the cancellation predicate is polled once before a batch
starts (`process_batch` returns without any request when it is set), but
`fetch_sent_emails` itself never reads it — its behaviour is identical for
every cancellation oracle, so retries and sleeps continue regardless of
cancellation once the fetch has begun. -/
theorem C2_amended (resp : Nat → Option (List Email)) (c c' : Nat → Bool) :
    fetch_sent_emails resp c = fetch_sent_emails resp c' ∧
    process_batch true resp c = ⟨0, 0, [], false⟩ :=
  ⟨rfl, rfl⟩

/-- C3, counterexample: the existing-record mapping is keyed by the RAW
stored `Recipient Email`, not by its normalization.  A stored record whose
address is literally identical to the aggregate entry's address (differing
from its normalization only in case) is not matched: the entry is queued as
an insert. -/
theorem C3_counterexample :
    (⟨"rec1", "Alice@X.com", some 2, some "2024-03-05"⟩ : AirRecord).recipientEmailField =
      (⟨"Alice@X.com", "x.com", 2, "Alice", some "2024/03/05"⟩ : Summary).recipientEmail ∧
    buildPlan [⟨"rec1", "Alice@X.com", some 2, some "2024-03-05"⟩]
        [⟨"Alice@X.com", "x.com", 2, "Alice", some "2024/03/05"⟩] =
      Except.ok ([⟨"Alice@X.com", "x.com", 2, "Alice", some "2024/03/05"⟩], []) := by
  decide

/-- C3, amended: only the aggregate-side address is normalized before the
lookup; the mapping keeps raw stored addresses as keys.  Hence an entry is
queued as insert exactly when no existing record's raw `Recipient Email`
equals the trimmed-and-lowercased aggregate address. -/
theorem C3_amended (existing : List AirRecord) (entry : Summary) :
    (stepEntry existing entry = Except.ok (EntryChoice.ins entry) ↔
      ∀ rec ∈ existing, rec.recipientEmailField ≠ normalizeAddr entry.recipientEmail) ∧
    ((∀ rec ∈ existing, rec.recipientEmailField ≠ normalizeAddr entry.recipientEmail) →
      buildPlan existing [entry] = Except.ok ([entry], [])) :=
  ⟨stepEntry_ins_iff existing entry, buildPlan_singleton_ins existing entry⟩

/-- C3, witness for the amended theorem at a concrete snapshot. -/
theorem C3_witness :
    buildPlan [⟨"rec1", "Anna@Y.com", some 1, some "2024-01-01"⟩]
        [⟨"anna@y.com", "y.com", 1, "Anna", some "2024/01/01"⟩] =
      Except.ok ([⟨"anna@y.com", "y.com", 1, "Anna", some "2024/01/01"⟩], []) :=
  (C3_amended [⟨"rec1", "Anna@Y.com", some 1, some "2024-01-01"⟩]
    ⟨"anna@y.com", "y.com", 1, "Anna", some "2024/01/01"⟩).2 (by decide)

/-- C4: for every run whose aggregation returns a value, the
`Total Mails Sent` reported for an address equals the sum over all records
of that address's occurrences in `to`, `cc` and `bcc` (0 when the address
is absent from the output); an address in both `to` and `cc` of one message
contributes 2. -/
theorem C4_total_count (emails : List Email) (out : List Summary) (r : String)
    (h : aggregate_email_data emails = Except.ok out) :
    ((findSummary out r).elim 0 Summary.totalMailsSent) = totalCount r emails := by
  obtain ⟨h1, h2⟩ := aggregate_char emails out h
  cases hf : findSummary out r with
  | none =>
    have h0 := h1 r hf
    simpa using h0.symm
  | some s =>
    obtain ⟨-, -, h3, -, -⟩ := h2 r s hf
    simpa using h3

/-- C4, witness: one message with the address once in `to` and once in `cc`
yields total 2. -/
theorem C4_witness :
    ((findSummary [⟨"a@x.com", "x.com", 2, "", some "2024/03/05"⟩] "a@x.com").elim 0
      Summary.totalMailsSent) =
      totalCount "a@x.com"
        [⟨"s", "m", ["a@x.com"], ["a@x.com"], [], "2024-03-05T10:00:00Z", []⟩] :=
  C4_total_count [⟨"s", "m", ["a@x.com"], ["a@x.com"], [], "2024-03-05T10:00:00Z", []⟩]
    [⟨"a@x.com", "x.com", 2, "", some "2024/03/05"⟩] "a@x.com" (by decide)

/-- C5: whenever aggregation returns a value and an address is present in
it, its `Last Interacted Date` is the lexical maximum of the formatted
received dates of the contributing records (an element of that date list
that bounds every element from above); with a single contributing record it
is that record's date. -/
theorem C5_last_interacted (emails : List Email) (out : List Summary)
    (r : String) (s : Summary)
    (h : aggregate_email_data emails = Except.ok out)
    (hs : findSummary out r = some s) :
    ∃ m, s.lastInteractedDate = some m ∧ m ∈ datesFor r emails ∧
      ∀ x ∈ datesFor r emails, x ≤ m := by
  obtain ⟨-, h2⟩ := aggregate_char emails out h
  obtain ⟨-, -, -, -, hm⟩ := h2 r s hs
  exact hm

/-- C5, witness at a single-record run: the date equals that record's
formatted date. -/
theorem C5_witness :
    ∃ m, (⟨"a@x.com", "x.com", 2, "", some "2024/03/05"⟩ : Summary).lastInteractedDate = some m ∧
      m ∈ datesFor "a@x.com"
        [⟨"s", "m", ["a@x.com"], ["a@x.com"], [], "2024-03-05T10:00:00Z", []⟩] ∧
      ∀ x ∈ datesFor "a@x.com"
        [⟨"s", "m", ["a@x.com"], ["a@x.com"], [], "2024-03-05T10:00:00Z", []⟩], x ≤ m :=
  C5_last_interacted [⟨"s", "m", ["a@x.com"], ["a@x.com"], [], "2024-03-05T10:00:00Z", []⟩]
    [⟨"a@x.com", "x.com", 2, "", some "2024/03/05"⟩] "a@x.com"
    ⟨"a@x.com", "x.com", 2, "", some "2024/03/05"⟩ (by decide) (by decide)

/-- C6: when every aggregate entry matches an existing record with equal
`Total Mails Sent` and equal `Last Interacted Date` after the `/` → `-`
separator normalization, reconciliation queues no inserts and no updates. -/
theorem C6_idempotent (aggregated : List Summary) (existing : List AirRecord)
    (h : ∀ entry ∈ aggregated, ∃ rec,
      dictOfRecords existing (normalizeAddr entry.recipientEmail) = some rec ∧
      rec.totalMailsSentField = some entry.totalMailsSent ∧
      ∃ d, entry.lastInteractedDate = some d ∧
        rec.lastInteractedField = some (replaceSlashDash d)) :
    buildPlan existing aggregated = Except.ok ([], []) :=
  buildPlan_all_skip existing aggregated h

/-- C6, witness: a matching snapshot produces empty insert and update
lists. -/
theorem C6_witness :
    buildPlan [⟨"rec1", "a@x.com", some 2, some "2024-03-05"⟩]
        [⟨"a@x.com", "x.com", 2, "", some "2024/03/05"⟩] = Except.ok ([], []) :=
  C6_idempotent [⟨"a@x.com", "x.com", 2, "", some "2024/03/05"⟩]
    [⟨"rec1", "a@x.com", some 2, some "2024-03-05"⟩]
    (by
      intro entry he
      rw [List.mem_singleton] at he
      subst he
      exact ⟨⟨"rec1", "a@x.com", some 2, some "2024-03-05"⟩, by decide, by decide,
        "2024/03/05", rfl, by decide⟩)

/-- C7, counterexample: the retry loop sleeps after EVERY failed attempt,
including the last — a batch failing all 3 attempts sleeps 3 times, not
only between consecutive attempts (which would be 2). -/
theorem C7_counterexample :
    (fetch_sent_emails (fun _ => none) (fun _ => false)).requests = 3 ∧
    (fetch_sent_emails (fun _ => none) (fun _ => false)).sleeps = 3 ∧
    ¬ (fetch_sent_emails (fun _ => none) (fun _ => false)).sleeps =
        (fetch_sent_emails (fun _ => none) (fun _ => false)).requests - 1 := by
  decide

/-- C7, amended: a batch whose requests never succeed performs exactly 3
attempts with a 10-second sleep after each (including the final one), is
permanently failed and contributes no records; in a run without
cancellation every batch is still processed and the buffer is the
concatenation of the per-batch contributions. -/
theorem C7_amended (resp : Nat → Nat → Option (List Email)) (total b : Nat)
    (c : Nat → Bool) (hfail : ∀ i, resp b i = none) :
    fetch_sent_emails (resp b) c = ⟨3, 3, [], true⟩ ∧
    (mainModel total resp (fun _ => false)).collected =
      (((List.range total).map
        (fun k => (fetch_sent_emails (resp k) (fun _ => false)).appended)).flatten) ∧
    (mainModel total resp (fun _ => false)).stoppedEarly = false := by
  refine ⟨fetch_allFail (resp b) c hfail, ?_, ?_⟩
  · rw [mainModel_noCancel total resp (fun _ => false) (fun _ => rfl)]
  · rw [mainModel_noCancel total resp (fun _ => false) (fun _ => rfl)]

/-- C7, witness at an all-failing single-batch run. -/
theorem C7_witness :
    fetch_sent_emails ((fun (_ : Nat) (_ : Nat) => (none : Option (List Email))) 0)
        (fun _ => false) = ⟨3, 3, [], true⟩ ∧
    (mainModel 1 (fun _ _ => none) (fun _ => false)).collected =
      (((List.range 1).map
        (fun k => (fetch_sent_emails ((fun (_ : Nat) (_ : Nat) =>
          (none : Option (List Email))) k) (fun _ => false)).appended)).flatten) ∧
    (mainModel 1 (fun _ _ => none) (fun _ => false)).stoppedEarly = false :=
  C7_amended (fun _ _ => none) 1 0 (fun _ => false) (fun _ => rfl)

/-- C8, counterexample: with the stop flag set after batch 0 completed and
before batch 1 is submitted, `main` returns immediately: batch 0's records
sit in the buffer but aggregation never runs (and nothing is pushed) — the
claim's "runs aggregation over exactly batch 0's records" is false. -/
theorem C8_counterexample :
    (mainModel 2
        (fun _ _ => some [⟨"s", "m", ["a@x.com"], [], [], "2024-03-05T10:00:00Z", []⟩])
        (fun p => decide (4 ≤ p))).collected =
      [⟨"s", "m", ["a@x.com"], [], [], "2024-03-05T10:00:00Z", []⟩] ∧
    (mainModel 2
        (fun _ _ => some [⟨"s", "m", ["a@x.com"], [], [], "2024-03-05T10:00:00Z", []⟩])
        (fun p => decide (4 ≤ p))).aggregated = none ∧
    (mainModel 2
        (fun _ _ => some [⟨"s", "m", ["a@x.com"], [], [], "2024-03-05T10:00:00Z", []⟩])
        (fun p => decide (4 ≤ p))).pushed = false ∧
    (mainModel 2
        (fun _ _ => some [⟨"s", "m", ["a@x.com"], [], [], "2024-03-05T10:00:00Z", []⟩])
        (fun p => decide (4 ≤ p))).aggregated ≠
      some (aggregate_email_data
        [⟨"s", "m", ["a@x.com"], [], [], "2024-03-05T10:00:00Z", []⟩]) := by
  decide

/-- C8, amended: when the stop flag becomes true at the submission-loop
poll before batch 1 (polls 0–3 false, poll 4 true) in a run of at least two
batches whose batch 0 succeeds, `main` returns early with exactly batch 0's
records collected, no aggregation and no destination writes. -/
theorem C8_amended (total : Nat) (resp : Nat → Nat → Option (List Email))
    (cancel : Nat → Bool) (msgs : List Email) (ht : 2 ≤ total)
    (h0 : cancel 0 = false) (h1 : cancel 1 = false) (h2 : cancel 2 = false)
    (h3 : cancel 3 = false) (h4 : cancel 4 = true) (hr : resp 0 0 = some msgs) :
    mainModel total resp cancel = ⟨msgs, none, false, true⟩ :=
  mainModel_cancelBeforeBatch1 total resp cancel msgs ht h0 h1 h2 h3 h4 hr

/-- C8, witness at the concrete two-batch run. -/
theorem C8_witness :
    mainModel 2
        (fun _ _ => some [⟨"s", "m", ["a@x.com"], [], [], "2024-03-05T10:00:00Z", []⟩])
        (fun p => decide (4 ≤ p)) =
      ⟨[⟨"s", "m", ["a@x.com"], [], [], "2024-03-05T10:00:00Z", []⟩], none, false, true⟩ :=
  C8_amended 2 (fun _ _ => some [⟨"s", "m", ["a@x.com"], [], [], "2024-03-05T10:00:00Z", []⟩])
    (fun p => decide (4 ≤ p)) [⟨"s", "m", ["a@x.com"], [], [], "2024-03-05T10:00:00Z", []⟩]
    (by omega) rfl rfl rfl rfl rfl rfl

/-- C9, counterexample: an unparseable timestamp alone does not make the
aggregation raise — a record whose `to`/`cc`/`bcc` are all empty never
reaches the `max`-merge, so the run with such a record still returns an
aggregate. -/
theorem C9_counterexample :
    aggregate_email_data [⟨"s", "m", [], [], [], "Unknown", []⟩] = Except.ok [] ∧
    format_date_for_airtable "Unknown" = none := by
  decide

/-- C9, amended: if every record's timestamp parses in the exact
`%Y-%m-%dT%H:%M:%SZ` format the aggregation is total; a record whose
timestamp does not parse (e.g. the default `"Unknown"`, or a fractional-
seconds timestamp) makes `format_date_for_airtable` return `None`, and if
such a record has at least one recipient the aggregation raises a
`TypeError` at the `max`-merge, so no aggregate is returned. -/
theorem C9_amended :
    (∀ emails : List Email,
      (∀ e ∈ emails, (format_date_for_airtable e.received).isSome) →
      ∃ out, aggregate_email_data emails = Except.ok out) ∧
    (∀ (emails : List Email) (e : Email), e ∈ emails → allRecipients e ≠ [] →
      format_date_for_airtable e.received = none →
      aggregate_email_data emails = Except.error ()) ∧
    format_date_for_airtable "Unknown" = none ∧
    format_date_for_airtable "2024-03-05T10:00:00.1234567Z" = none := by
  refine ⟨?_, ?_, by decide, by decide⟩
  · intro emails hp
    exact aggregate_ok_of_good emails (fun e he => Or.inr (hp e he))
  · intro emails e he hne hd
    have hbad : ¬ goodEmail e := by
      rw [goodEmail]
      push_neg
      exact ⟨hne, by simp [hd]⟩
    have herr := aggAux_err emails [] (by intro k s hs; simp [lookupStats] at hs)
      (fun p hp => by simp at hp) ⟨e, he, hbad⟩
    rw [aggregate_email_data, herr]

/-- C9, witness: a recipient-carrying `"Unknown"` record raises; an
all-parseable run returns an aggregate. -/
theorem C9_witness :
    aggregate_email_data [⟨"s", "m", ["a@x.com"], [], [], "Unknown", []⟩] =
      Except.error () ∧
    ∃ out, aggregate_email_data
      [⟨"s", "m", ["a@x.com"], [], [], "2024-03-05T10:00:00Z", []⟩] = Except.ok out :=
  ⟨C9_amended.2.1 [⟨"s", "m", ["a@x.com"], [], [], "Unknown", []⟩]
      ⟨"s", "m", ["a@x.com"], [], [], "Unknown", []⟩ (by simp) (by decide) (by decide),
   C9_amended.1 [⟨"s", "m", ["a@x.com"], [], [], "2024-03-05T10:00:00Z", []⟩]
      (by
        intro e he
        rw [List.mem_singleton] at he
        subst he
        decide)⟩

/-- C10: with a `None` callback or a plain function (no `__self__`), the
internal `should_stop` probe is constantly `Except.ok false`, so a run with
it never stops early and always reaches aggregation; `should_stop` can
return `true` only for a bound method of an object implementing
`should_stop`, as `ThreadSafeLogger.add_log` is. -/
theorem C10_stop_probe (cb : Callback)
    (hcb : cb = Callback.noCallback ∨ cb = Callback.plainFn) :
    (∀ p, mainShouldStop cb p = Except.ok false) ∧
    (∀ cb' p, mainShouldStop cb' p = Except.ok true →
      ∃ flag, cb' = Callback.boundMethod (some flag) ∧ flag p = true) ∧
    (∀ flag p, mainShouldStop (threadSafeLoggerCallback flag) p = Except.ok (flag p)) ∧
    (∀ total resp, (mainModel total resp (fun _ => false)).stoppedEarly = false ∧
      (mainModel total resp (fun _ => false)).aggregated =
        some (aggregate_email_data (mainModel total resp (fun _ => false)).collected)) := by
  refine ⟨?_, ?_, ?_, ?_⟩
  · intro p
    rcases hcb with h | h <;> rw [h] <;> rfl
  · intro cb' p h
    cases cb' with
    | noCallback => simp [mainShouldStop] at h
    | plainFn => simp [mainShouldStop] at h
    | boundMethod o =>
      cases o with
      | none => simp [mainShouldStop] at h
      | some flag =>
        refine ⟨flag, rfl, ?_⟩
        simpa [mainShouldStop] using h
  · intro flag p
    rfl
  · intro total resp
    rw [mainModel_noCancel total resp (fun _ => false) (fun _ => rfl)]
    exact ⟨rfl, rfl⟩

/-- C10, witness at the `None` callback and a one-batch run. -/
theorem C10_witness :
    mainShouldStop Callback.noCallback 0 = Except.ok false ∧
    (mainModel 1 (fun _ _ => some []) (fun _ => false)).stoppedEarly = false :=
  ⟨(C10_stop_probe Callback.noCallback (Or.inl rfl)).1 0,
   ((C10_stop_probe Callback.noCallback (Or.inl rfl)).2.2.2 1 (fun _ _ => some [])).1⟩
